import Mathlib

/-!
Verification of the octahedral twist engine of `src/twists.py`.

The Python source models a six-ligand octahedral complex and two twist
distortions (Ray-Dutt and Bailar) built on `numpy` arrays and
`scipy.spatial.transform.Rotation`.  We embed the program shallowly:

* `Vec3` stands for a row of a numpy `(n, 3)` array (a 3D point with real
  coordinates; floating point is idealised as `ℝ`);
* a numpy `(n, 3)` array is a `List Vec3`;
* `Rotation.from_rotvec(rv).apply(v)` is `from_rotvec_apply rv v`, the exact
  axis-angle (Rodrigues) rotation scipy computes: angle `‖rv‖`, axis
  `rv / ‖rv‖`, written division-free so that the zero rotation vector yields
  the identity (in `ℝ`, `x / 0 = 0` makes the closed form collapse to `v`);
* the mutable `OctahedralComplex` object is a structure, and each mutating
  method is a function from the structure to the updated structure;
* the Flask handler `animate_twist` is a function into `Except`, with
  `.error` standing for an uncaught Python exception (`ZeroDivisionError`).
-/

/-- A 3D point with real coordinates: one row of a numpy `(n, 3)` array. -/
structure Vec3 where
  x : ℝ
  y : ℝ
  z : ℝ

instance : Add Vec3 := ⟨fun a b => ⟨a.x + b.x, a.y + b.y, a.z + b.z⟩⟩

instance : SMul ℝ Vec3 := ⟨fun r v => ⟨r * v.x, r * v.y, r * v.z⟩⟩

theorem Vec3.add_def (a b : Vec3) : a + b = ⟨a.x + b.x, a.y + b.y, a.z + b.z⟩ := rfl

theorem Vec3.smul_def (r : ℝ) (v : Vec3) : r • v = ⟨r * v.x, r * v.y, r * v.z⟩ := rfl

/-- Dot product of two 3D vectors. -/
def Vec3.dot (a b : Vec3) : ℝ := a.x * b.x + a.y * b.y + a.z * b.z

/-- Cross product of two 3D vectors. -/
def Vec3.cross (a b : Vec3) : Vec3 :=
  ⟨a.y * b.z - a.z * b.y, a.z * b.x - a.x * b.z, a.x * b.y - a.y * b.x⟩

/-- Euclidean norm, `np.linalg.norm` on a single 3-vector. -/
noncomputable def Vec3.norm (v : Vec3) : ℝ := Real.sqrt (v.dot v)

/-- The normalisation `v / np.linalg.norm(v)` performed at line 60 of the
source (`axis = axis / np.linalg.norm(axis)`). -/
noncomputable def normalizeVec (v : Vec3) : Vec3 := (v.norm)⁻¹ • v

/-- Degrees to radians, `np.deg2rad`. -/
noncomputable def deg2rad (d : ℝ) : ℝ := d * (Real.pi / 180)

/-- The rotation `scipy.spatial.transform.Rotation.from_rotvec(rv)` applied to
a point `v`: rotation by angle `‖rv‖` about the axis `rv / ‖rv‖` (right-hand
rule), in Rodrigues form.  Written so that the divisions disappear (giving the
identity rotation) when `rv = 0`, matching scipy's small-angle convention
exactly at the exact-real level. -/
noncomputable def from_rotvec_apply (rv v : Vec3) : Vec3 :=
  Real.cos rv.norm • v + (Real.sin rv.norm / rv.norm) • rv.cross v +
    ((1 - Real.cos rv.norm) / rv.norm ^ 2 * rv.dot v) • rv

/-- The single right-hand-rule rotation of `v` by the signed angle `θ` about a
unit axis `k`, in Rodrigues form.  This is the specification-side primitive
(`rotate` of spec §4.1); `from_rotvec_smul_unit` proves it coincides with the
scipy computation `from_rotvec(θ * k)` the source performs. -/
noncomputable def axisAngleRotate (k : Vec3) (θ : ℝ) (v : Vec3) : Vec3 :=
  Real.cos θ • v + Real.sin θ • k.cross v + ((1 - Real.cos θ) * k.dot v) • k

/-- The `OctahedralComplex` object: `initial_positions` is set at construction
and never reassigned; `positions` is the mutable current vertex set. -/
structure OctahedralComplex where
  initial_positions : List Vec3
  positions : List Vec3

/-- The default ligand positions of `OctahedralComplex.__init__`. -/
def defaultPositions : List Vec3 :=
  [⟨1, 0, 0⟩, ⟨-1, 0, 0⟩, ⟨0, 1, 0⟩, ⟨0, -1, 0⟩, ⟨0, 0, 1⟩, ⟨0, 0, -1⟩]

/-- `OctahedralComplex.__init__`: an optional supplied vertex set, defaulting
to the six axis-aligned positions; `positions` starts as a copy of
`initial_positions`.  The source performs no validation of the supplied
list (in particular no length check). -/
def OctahedralComplex.init (initial_positions : Option (List Vec3)) : OctahedralComplex :=
  let ip := initial_positions.getD defaultPositions
  ⟨ip, ip⟩

/-- The face index triples hardcoded in `generate_planes` (lines 29-38). -/
def faces : List (List ℕ) :=
  [[0, 2, 4], [0, 2, 5], [0, 3, 4], [0, 3, 5], [1, 2, 4], [1, 2, 5], [1, 3, 4], [1, 3, 5]]

/-- One entry of the list `generate_planes` returns: the dict
`\x7b'x': ..., 'y': ..., 'z': ...\x7d` of the three vertices' coordinates. -/
structure PlaneCoords where
  x : List ℝ
  y : List ℝ
  z : List ℝ

/-- Numpy fancy indexing `ps[idxs]`: gather the rows at the given indices. -/
def gather (ps : List Vec3) (idxs : List ℕ) : List Vec3 :=
  idxs.map (fun i => ps.getD i ⟨0, 0, 0⟩)

/-- `OctahedralComplex.generate_planes`: for each face triple, the `x`, `y`
and `z` coordinates (in vertex order) of the three current positions it
indexes. -/
def OctahedralComplex.generate_planes (c : OctahedralComplex) : List PlaneCoords :=
  faces.map (fun face =>
    let vertices := gather c.positions face
    ⟨vertices.map Vec3.x, vertices.map Vec3.y, vertices.map Vec3.z⟩)

/-- `OctahedralComplex.ray_dutt_twist`: rotate every initial position by
`deg2rad (angle * progression)` about `normalizeVec (1,1,1)` via
`R.from_rotvec(theta * axis)`, store the result as the new current
positions (which the method also returns). -/
noncomputable def OctahedralComplex.ray_dutt_twist (c : OctahedralComplex)
    (angle : ℝ) (progression : ℝ) : OctahedralComplex :=
  let theta := deg2rad (angle * progression)
  let axis := normalizeVec ⟨1, 1, 1⟩
  { c with positions := c.initial_positions.map (from_rotvec_apply (theta • axis)) }

/-- Numpy fancy-index assignment `ps[idxs] = vals`: scatter `vals` into the
rows of `ps` at the indices `idxs`, in order. -/
def setIndices (ps : List Vec3) (idxs : List ℕ) (vals : List Vec3) : List Vec3 :=
  (idxs.zip vals).foldl (fun acc iv => acc.set iv.1 iv.2) ps

/-- `OctahedralComplex.bailar_twist`: copy the initial positions, then
overwrite the rows at the top indices `[0, 2, 4]` with the initial rows there
rotated by `from_rotvec(theta * (0,0,1))`, and the rows at the bottom indices
`[1, 3, 5]` with the initial rows there rotated by
`from_rotvec(-theta * (0,0,1))`. -/
noncomputable def OctahedralComplex.bailar_twist (c : OctahedralComplex)
    (angle : ℝ) (progression : ℝ) : OctahedralComplex :=
  let theta := deg2rad (angle * progression)
  let top_indices : List ℕ := [0, 2, 4]
  let bottom_indices : List ℕ := [1, 3, 5]
  let pos₀ := c.initial_positions
  let pos₁ := setIndices pos₀ top_indices
    ((gather c.initial_positions top_indices).map (from_rotvec_apply (theta • ⟨0, 0, 1⟩)))
  let pos₂ := setIndices pos₁ bottom_indices
    ((gather c.initial_positions bottom_indices).map (from_rotvec_apply ((-theta) • ⟨0, 0, 1⟩)))
  { c with positions := pos₂ }

/-- The constant edge list serialized with every frame (lines 108-111 and
134-137 of the source). -/
def edgesList : List (ℕ × ℕ) :=
  [(0, 1), (2, 3), (4, 5), (0, 2), (0, 4), (1, 3), (1, 5), (2, 4), (2, 5), (3, 4), (3, 5)]

/-- One frame dict appended by the `animate_twist` loop. -/
structure Frame where
  positions : List Vec3
  edges : List (ℕ × ℕ)
  planes : List PlaneCoords

/-- One iteration of the `animate_twist` loop at index `i`: compute
`progression = i / num_frames`, run the selected twist on the complex (any
`twist_type` other than the literal `"ray_dutt"` takes the Bailar branch), and
append the frame built from the mutated complex. -/
noncomputable def twistStep (twist_type : String) (max_angle : ℝ) (num_frames : ℤ)
    (acc : OctahedralComplex × List Frame) (i : ℕ) : OctahedralComplex × List Frame :=
  let progression : ℝ := (i : ℝ) / (num_frames : ℝ)
  let c := if twist_type = "ray_dutt" then acc.1.ray_dutt_twist max_angle progression
    else acc.1.bailar_twist max_angle progression
  (c, acc.2 ++ [{ positions := c.positions, edges := edgesList, planes := c.generate_planes }])

/-- The `animate_twist` handler: loop `i` over `range(num_frames + 1)`
(empty when `num_frames < 0`), threading the mutated global complex, and
return the accumulated frames.  When `num_frames = 0` the first iteration's
`i / num_frames` raises `ZeroDivisionError`, modelled as `.error`. -/
noncomputable def animate_twist (c : OctahedralComplex) (twist_type : String)
    (max_angle : ℝ) (num_frames : ℤ) : Except String (OctahedralComplex × List Frame) :=
  if num_frames = 0 then .error "ZeroDivisionError: division by zero"
  else .ok ((List.range (num_frames + 1).toNat).foldl
    (twistStep twist_type max_angle num_frames) (c, []))

/-! ## Basic vector and rotation lemmas -/

theorem Vec3.dot_smul_left (r : ℝ) (a b : Vec3) : (r • a).dot b = r * a.dot b := by
  simp only [Vec3.smul_def, Vec3.dot]
  ring

theorem Vec3.cross_smul_left (r : ℝ) (a b : Vec3) : (r • a).cross b = r • a.cross b := by
  simp only [Vec3.smul_def, Vec3.cross, Vec3.mk.injEq]
  refine ⟨by ring, by ring, by ring⟩

theorem Vec3.norm_smul (r : ℝ) (v : Vec3) : (r • v).norm = |r| * v.norm := by
  simp only [Vec3.norm, Vec3.smul_def, Vec3.dot]
  have h : r * v.x * (r * v.x) + r * v.y * (r * v.y) + r * v.z * (r * v.z) =
      r ^ 2 * (v.x * v.x + v.y * v.y + v.z * v.z) := by ring
  rw [h, Real.sqrt_mul (sq_nonneg r), Real.sqrt_sq_eq_abs]

theorem Vec3.dot_self_of_norm_one {k : Vec3} (hk : k.norm = 1) : k.dot k = 1 := by
  have := Real.sqrt_eq_one.mp hk
  exact this

theorem sin_abs_div_abs (θ : ℝ) : Real.sin |θ| / |θ| = Real.sin θ / θ := by
  rcases abs_cases θ with ⟨h1, _⟩ | ⟨h1, _⟩
  · rw [h1]
  · rw [h1, Real.sin_neg, neg_div_neg_eq]

/-- For a unit axis `k`, the scipy computation `from_rotvec(θ * k)` is the
right-hand-rule rotation by the signed angle `θ` about `k`. -/
theorem from_rotvec_smul_unit {k : Vec3} (hk : k.norm = 1) (θ : ℝ) (v : Vec3) :
    from_rotvec_apply (θ • k) v = axisAngleRotate k θ v := by
  have hnorm : (θ • k).norm = |θ| := by rw [Vec3.norm_smul, hk, mul_one]
  simp only [from_rotvec_apply, axisAngleRotate, hnorm, Real.cos_abs, sin_abs_div_abs,
    sq_abs, Vec3.cross_smul_left, Vec3.dot_smul_left]
  rcases eq_or_ne θ 0 with h0 | h0
  · subst h0
    simp [Vec3.smul_def, Vec3.add_def, Vec3.mk.injEq]
  · simp only [Vec3.smul_def, Vec3.add_def, Vec3.mk.injEq]
    refine ⟨?_, ?_, ?_⟩ <;> field_simp <;> ring

theorem axisAngleRotate_zero (k v : Vec3) : axisAngleRotate k 0 v = v := by
  simp only [axisAngleRotate, Real.cos_zero, Real.sin_zero]
  simp [Vec3.smul_def, Vec3.add_def]

theorem deg2rad_zero : deg2rad 0 = 0 := by
  simp [deg2rad]

theorem norm_zUnit : (⟨0, 0, 1⟩ : Vec3).norm = 1 := by
  simp only [Vec3.norm, Vec3.dot]
  norm_num

theorem norm_one111 : (⟨1, 1, 1⟩ : Vec3).norm = Real.sqrt 3 := by
  simp only [Vec3.norm, Vec3.dot]
  norm_num

theorem normalizeVec_one111 : normalizeVec ⟨1, 1, 1⟩ = (Real.sqrt 3)⁻¹ • ⟨1, 1, 1⟩ := by
  rw [normalizeVec, norm_one111]

theorem norm_normalizeVec_one111 : (normalizeVec ⟨1, 1, 1⟩).norm = 1 := by
  rw [normalizeVec_one111, Vec3.norm_smul, norm_one111,
    abs_of_nonneg (inv_nonneg.mpr (Real.sqrt_nonneg 3))]
  rw [inv_mul_cancel₀ (by positivity)]

/-! ## Characterisations of the two twists -/

theorem ray_dutt_twist_initial (c : OctahedralComplex) (a p : ℝ) :
    (c.ray_dutt_twist a p).initial_positions = c.initial_positions := rfl

theorem bailar_twist_initial (c : OctahedralComplex) (a p : ℝ) :
    (c.bailar_twist a p).initial_positions = c.initial_positions := rfl

/-- The positions `ray_dutt_twist` computes: every initial position rotated by
the signed effective angle about the normalised `(1,1,1)` axis. -/
theorem ray_dutt_twist_positions (c : OctahedralComplex) (a p : ℝ) :
    (c.ray_dutt_twist a p).positions =
      c.initial_positions.map (axisAngleRotate (normalizeVec ⟨1, 1, 1⟩) (deg2rad (a * p))) := by
  simp only [OctahedralComplex.ray_dutt_twist]
  exact List.map_congr_left fun v _ => from_rotvec_smul_unit norm_normalizeVec_one111 _ v

/-- The positions `bailar_twist` computes on a six-element vertex set. -/
theorem bailar_twist_positions (c : OctahedralComplex) (a p : ℝ)
    (v₀ v₁ v₂ v₃ v₄ v₅ : Vec3) (h : c.initial_positions = [v₀, v₁, v₂, v₃, v₄, v₅]) :
    (c.bailar_twist a p).positions =
      [axisAngleRotate ⟨0, 0, 1⟩ (deg2rad (a * p)) v₀,
       axisAngleRotate ⟨0, 0, 1⟩ (-(deg2rad (a * p))) v₁,
       axisAngleRotate ⟨0, 0, 1⟩ (deg2rad (a * p)) v₂,
       axisAngleRotate ⟨0, 0, 1⟩ (-(deg2rad (a * p))) v₃,
       axisAngleRotate ⟨0, 0, 1⟩ (deg2rad (a * p)) v₄,
       axisAngleRotate ⟨0, 0, 1⟩ (-(deg2rad (a * p))) v₅] := by
  simp only [OctahedralComplex.bailar_twist, h, gather, setIndices]
  simp [List.set, from_rotvec_smul_unit norm_zUnit]

/-! ## Zero-progression and length lemmas -/

theorem set_getD_self (ps : List Vec3) (i : ℕ) (d : Vec3) :
    ps.set i (ps[i]?.getD d) = ps := by
  induction ps generalizing i with
  | nil => rfl
  | cons head tail ih =>
      cases i with
      | zero => simp
      | succ j => simp [ih j]

theorem from_rotvec_zero_smul (k v : Vec3) : from_rotvec_apply ((0 : ℝ) • k) v = v := by
  cases v with
  | mk vx vy vz =>
      simp only [Vec3.smul_def, zero_mul]
      simp only [from_rotvec_apply, Vec3.norm, Vec3.dot, Vec3.cross, Vec3.add_def, Vec3.smul_def]
      norm_num

theorem ray_dutt_twist_zero (c : OctahedralComplex) (a : ℝ) :
    (c.ray_dutt_twist a 0).positions = c.initial_positions := by
  rw [ray_dutt_twist_positions, mul_zero, deg2rad_zero]
  have h : c.initial_positions.map (axisAngleRotate (normalizeVec ⟨1, 1, 1⟩) 0) =
      c.initial_positions.map id :=
    List.map_congr_left fun v _ => axisAngleRotate_zero _ v
  rw [h, List.map_id]

theorem bailar_twist_zero (c : OctahedralComplex) (a : ℝ) :
    (c.bailar_twist a 0).positions = c.initial_positions := by
  simp only [OctahedralComplex.bailar_twist, mul_zero, deg2rad_zero, neg_zero,
    gather, setIndices]
  simp [from_rotvec_zero_smul, set_getD_self]

theorem foldl_set_length (l : List (ℕ × Vec3)) (ps : List Vec3) :
    (l.foldl (fun acc iv => acc.set iv.1 iv.2) ps).length = ps.length := by
  induction l generalizing ps with
  | nil => rfl
  | cons head tail ih => simp [List.foldl, ih]

theorem setIndices_length (ps : List Vec3) (idxs : List ℕ) (vals : List Vec3) :
    (setIndices ps idxs vals).length = ps.length :=
  foldl_set_length _ _

theorem ray_dutt_twist_positions_length (c : OctahedralComplex) (a p : ℝ) :
    (c.ray_dutt_twist a p).positions.length = c.initial_positions.length := by
  simp [OctahedralComplex.ray_dutt_twist]

theorem bailar_twist_positions_length (c : OctahedralComplex) (a p : ℝ) :
    (c.bailar_twist a p).positions.length = c.initial_positions.length := by
  simp only [OctahedralComplex.bailar_twist]
  rw [setIndices_length, setIndices_length]

/-! ## Twists depend only on the initial positions -/

theorem ray_dutt_twist_eq_of_initial {c d : OctahedralComplex}
    (h : c.initial_positions = d.initial_positions) (a p : ℝ) :
    c.ray_dutt_twist a p = d.ray_dutt_twist a p := by
  cases c with
  | mk ci cp =>
      cases d with
      | mk di dp =>
          simp only [OctahedralComplex.ray_dutt_twist]
          simp only at h
          rw [h]

theorem bailar_twist_eq_of_initial {c d : OctahedralComplex}
    (h : c.initial_positions = d.initial_positions) (a p : ℝ) :
    c.bailar_twist a p = d.bailar_twist a p := by
  cases c with
  | mk ci cp =>
      cases d with
      | mk di dp =>
          simp only [OctahedralComplex.bailar_twist]
          simp only at h
          rw [h]

/-! ## Sequences of twist evaluations on one complex -/

/-- One twist method invocation on the mutable complex. -/
inductive TwistOp where
  | rayDutt (angle progression : ℝ)
  | bailar (angle progression : ℝ)

/-- Run one twist invocation on the complex. -/
noncomputable def applyOp (c : OctahedralComplex) : TwistOp → OctahedralComplex
  | TwistOp.rayDutt a p => c.ray_dutt_twist a p
  | TwistOp.bailar a p => c.bailar_twist a p

/-- Run a sequence of twist invocations on the complex, in order. -/
noncomputable def applyOps (c : OctahedralComplex) (ops : List TwistOp) : OctahedralComplex :=
  ops.foldl applyOp c

theorem applyOp_initial (c : OctahedralComplex) (op : TwistOp) :
    (applyOp c op).initial_positions = c.initial_positions := by
  cases op <;> rfl

theorem applyOps_initial (c : OctahedralComplex) (ops : List TwistOp) :
    (applyOps c ops).initial_positions = c.initial_positions := by
  induction ops generalizing c with
  | nil => rfl
  | cons op rest ih =>
      rw [applyOps, List.foldl_cons]
      rw [show (List.foldl applyOp (applyOp c op) rest) = applyOps (applyOp c op) rest from rfl]
      rw [ih, applyOp_initial]

theorem applyOp_positions_length (c : OctahedralComplex) (op : TwistOp) :
    (applyOp c op).positions.length = c.initial_positions.length := by
  cases op with
  | rayDutt a p => exact ray_dutt_twist_positions_length c a p
  | bailar a p => exact bailar_twist_positions_length c a p

theorem applyOps_positions_length (c : OctahedralComplex) (ops : List TwistOp)
    (h : c.positions.length = c.initial_positions.length) :
    (applyOps c ops).positions.length = c.initial_positions.length := by
  induction ops generalizing c with
  | nil => exact h
  | cons op rest ih =>
      rw [applyOps, List.foldl_cons]
      rw [show (List.foldl applyOp (applyOp c op) rest) = applyOps (applyOp c op) rest from rfl]
      have := ih (applyOp c op) (by rw [applyOp_positions_length, applyOp_initial])
      rwa [applyOp_initial] at this

theorem applyOp_eq_of_initial {c d : OctahedralComplex}
    (h : c.initial_positions = d.initial_positions) (op : TwistOp) :
    applyOp c op = applyOp d op := by
  cases op with
  | rayDutt a p => exact ray_dutt_twist_eq_of_initial h a p
  | bailar a p => exact bailar_twist_eq_of_initial h a p

/-! ## The animation loop -/

/-- The complex the loop body produces at index `i` when the threaded complex
has the given initial set: the selected twist at progression `i / num_frames`,
run on a freshly constructed complex with that initial set. -/
noncomputable def frameComplex (kind : String) (a : ℝ) (N : ℤ) (init : List Vec3) (i : ℕ) :
    OctahedralComplex :=
  if kind = "ray_dutt" then
    (OctahedralComplex.init (some init)).ray_dutt_twist a ((i : ℝ) / (N : ℝ))
  else
    (OctahedralComplex.init (some init)).bailar_twist a ((i : ℝ) / (N : ℝ))

/-- The frame the loop body appends at index `i`. -/
noncomputable def frameAt (kind : String) (a : ℝ) (N : ℤ) (init : List Vec3) (i : ℕ) : Frame :=
  { positions := (frameComplex kind a N init i).positions
    edges := edgesList
    planes := (frameComplex kind a N init i).generate_planes }

theorem init_initial (init : List Vec3) :
    (OctahedralComplex.init (some init)).initial_positions = init := rfl

theorem frameComplex_initial (kind : String) (a : ℝ) (N : ℤ) (init : List Vec3) (i : ℕ) :
    (frameComplex kind a N init i).initial_positions = init := by
  rw [frameComplex]
  split
  · rfl
  · rfl

theorem twistStep_eq (kind : String) (a : ℝ) (N : ℤ) (init : List Vec3)
    (c : OctahedralComplex) (fs : List Frame) (i : ℕ) (h : c.initial_positions = init) :
    twistStep kind a N (c, fs) i =
      (frameComplex kind a N init i, fs ++ [frameAt kind a N init i]) := by
  have hinit : c.initial_positions = (OctahedralComplex.init (some init)).initial_positions := h
  by_cases hk : kind = "ray_dutt"
  · simp only [twistStep, frameComplex, frameAt, hk, if_true]
    rw [ray_dutt_twist_eq_of_initial hinit]
  · simp only [twistStep, frameComplex, frameAt, hk, if_false]
    rw [bailar_twist_eq_of_initial hinit]

theorem foldl_twistStep (kind : String) (a : ℝ) (N : ℤ) (init : List Vec3)
    (l : List ℕ) (c : OctahedralComplex) (fs : List Frame) (h : c.initial_positions = init) :
    (l.foldl (twistStep kind a N) (c, fs)).2 = fs ++ l.map (frameAt kind a N init) ∧
      (l.foldl (twistStep kind a N) (c, fs)).1.initial_positions = init := by
  induction l generalizing c fs with
  | nil => exact ⟨(List.append_nil fs).symm, h⟩
  | cons i rest ih =>
      rw [List.foldl_cons, twistStep_eq kind a N init c fs i h]
      obtain ⟨h2, h1⟩ := ih (frameComplex kind a N init i) (fs ++ [frameAt kind a N init i])
        (frameComplex_initial kind a N init i)
      refine ⟨?_, h1⟩
      rw [h2]
      simp

theorem animate_twist_eq (c : OctahedralComplex) (kind : String) (a : ℝ) (N : ℤ)
    (hN : N ≠ 0) :
    ∃ final : OctahedralComplex,
      animate_twist c kind a N =
        .ok (final, (List.range (N + 1).toNat).map (frameAt kind a N c.initial_positions)) := by
  obtain ⟨h2, -⟩ := foldl_twistStep kind a N c.initial_positions
    (List.range (N + 1).toNat) c [] rfl
  refine ⟨((List.range (N + 1).toNat).foldl (twistStep kind a N) (c, [])).1, ?_⟩
  rw [animate_twist, if_neg hN]
  exact congrArg Except.ok (Prod.ext_iff.mpr ⟨rfl, by rw [h2]; simp⟩)

/-! ## Claim theorems -/

/-- C1: for every initial vertex set, angle `a` and progression `p`,
`ray_dutt_twist a p` stores as the new current positions exactly the initial
positions, each transformed (in index order, all together) by the single
right-hand-rule rotation of `deg2rad (a * p)` radians about the unit axis
`(1,1,1)/sqrt 3`, and the initial set is untouched.  The second conjunct
checks that the axis the code normalises is that unit vector, the third that
it has norm one. -/
theorem claim_C1_ray_dutt_single_rotation (c : OctahedralComplex) (a p : ℝ) :
    (c.ray_dutt_twist a p).positions =
      c.initial_positions.map
        (axisAngleRotate ((Real.sqrt 3)⁻¹ • ⟨1, 1, 1⟩) (deg2rad (a * p))) ∧
    normalizeVec ⟨1, 1, 1⟩ = (Real.sqrt 3)⁻¹ • ⟨1, 1, 1⟩ ∧
    ((Real.sqrt 3)⁻¹ • (⟨1, 1, 1⟩ : Vec3)).norm = 1 ∧
    (c.ray_dutt_twist a p).initial_positions = c.initial_positions := by
  refine ⟨?_, normalizeVec_one111, ?_, rfl⟩
  · rw [ray_dutt_twist_positions, normalizeVec_one111]
  · rw [← normalizeVec_one111]
    exact norm_normalizeVec_one111

/-- C2: on a six-point vertex set, `bailar_twist a p` rotates the initial
positions at indices 0, 2, 4 by `+deg2rad (a * p)` and those at indices
1, 3, 5 by `-deg2rad (a * p)` about the axis `(0,0,1)`, in the original index
order, always reading the initial positions (the current positions of `c` are
arbitrary), and the initial set is untouched. -/
theorem claim_C2_bailar_counter_rotation (c : OctahedralComplex) (a p : ℝ)
    (v₀ v₁ v₂ v₃ v₄ v₅ : Vec3) (h : c.initial_positions = [v₀, v₁, v₂, v₃, v₄, v₅]) :
    (c.bailar_twist a p).positions =
      [axisAngleRotate ⟨0, 0, 1⟩ (deg2rad (a * p)) v₀,
       axisAngleRotate ⟨0, 0, 1⟩ (-(deg2rad (a * p))) v₁,
       axisAngleRotate ⟨0, 0, 1⟩ (deg2rad (a * p)) v₂,
       axisAngleRotate ⟨0, 0, 1⟩ (-(deg2rad (a * p))) v₃,
       axisAngleRotate ⟨0, 0, 1⟩ (deg2rad (a * p)) v₄,
       axisAngleRotate ⟨0, 0, 1⟩ (-(deg2rad (a * p))) v₅] ∧
    (c.bailar_twist a p).initial_positions = c.initial_positions :=
  ⟨bailar_twist_positions c a p v₀ v₁ v₂ v₃ v₄ v₅ h, rfl⟩

/-- C2 witness: the claim instantiated on the default complex at angle 90,
progression 1. -/
theorem claim_C2_bailar_counter_rotation_witness :
    (OctahedralComplex.init none).initial_positions =
      [⟨1, 0, 0⟩, ⟨-1, 0, 0⟩, ⟨0, 1, 0⟩, ⟨0, -1, 0⟩, ⟨0, 0, 1⟩, ⟨0, 0, -1⟩] ∧
    ((OctahedralComplex.init none).bailar_twist 90 1).positions =
      [axisAngleRotate ⟨0, 0, 1⟩ (deg2rad (90 * 1)) ⟨1, 0, 0⟩,
       axisAngleRotate ⟨0, 0, 1⟩ (-(deg2rad (90 * 1))) ⟨-1, 0, 0⟩,
       axisAngleRotate ⟨0, 0, 1⟩ (deg2rad (90 * 1)) ⟨0, 1, 0⟩,
       axisAngleRotate ⟨0, 0, 1⟩ (-(deg2rad (90 * 1))) ⟨0, -1, 0⟩,
       axisAngleRotate ⟨0, 0, 1⟩ (deg2rad (90 * 1)) ⟨0, 0, 1⟩,
       axisAngleRotate ⟨0, 0, 1⟩ (-(deg2rad (90 * 1))) ⟨0, 0, -1⟩] :=
  ⟨rfl, (claim_C2_bailar_counter_rotation (OctahedralComplex.init none) 90 1
    ⟨1, 0, 0⟩ ⟨-1, 0, 0⟩ ⟨0, 1, 0⟩ ⟨0, -1, 0⟩ ⟨0, 0, 1⟩ ⟨0, 0, -1⟩ rfl).1⟩

/-- C3: at progression 0 both twists return current positions equal to the
initial vertex set, for every complex and every angle. -/
theorem claim_C3_identity_at_zero_progression (c : OctahedralComplex) (a : ℝ) :
    (c.ray_dutt_twist a 0).positions = c.initial_positions ∧
    (c.bailar_twist a 0).positions = c.initial_positions :=
  ⟨ray_dutt_twist_zero c a, bailar_twist_zero c a⟩

/-- C4: after any sequence of prior twist calls on the same complex, a twist
call produces the same positions as the same call on a freshly constructed
complex with the same initial set; and `ray_dutt_twist a 1` is the direct
single rotation of the initial set by `deg2rad a` about `normalize (1,1,1)`. -/
theorem claim_C4_history_independence (c : OctahedralComplex) (ops : List TwistOp) (a p : ℝ) :
    ((applyOps c ops).ray_dutt_twist a p).positions =
      ((OctahedralComplex.init (some c.initial_positions)).ray_dutt_twist a p).positions ∧
    ((applyOps c ops).bailar_twist a p).positions =
      ((OctahedralComplex.init (some c.initial_positions)).bailar_twist a p).positions ∧
    (c.ray_dutt_twist a 1).positions =
      c.initial_positions.map (axisAngleRotate (normalizeVec ⟨1, 1, 1⟩) (deg2rad a)) := by
  have h : (applyOps c ops).initial_positions =
      (OctahedralComplex.init (some c.initial_positions)).initial_positions := by
    rw [applyOps_initial, init_initial]
  refine ⟨?_, ?_, ?_⟩
  · rw [ray_dutt_twist_eq_of_initial h]
  · rw [bailar_twist_eq_of_initial h]
  · rw [ray_dutt_twist_positions, mul_one]

theorem frameAt_zero (kind : String) (a : ℝ) (N : ℤ) (init : List Vec3) :
    (frameAt kind a N init 0).positions = init := by
  have hp : ((0 : ℕ) : ℝ) / (N : ℝ) = 0 := by norm_num
  show (frameComplex kind a N init 0).positions = init
  rw [frameComplex]
  split
  · rw [hp, ray_dutt_twist_zero, init_initial]
  · rw [hp, bailar_twist_zero, init_initial]

theorem frameComplex_last (kind : String) (a : ℝ) (N : ℤ) (init : List Vec3)
    (hN : 1 ≤ N) :
    frameComplex kind a N init N.toNat =
      (if kind = "ray_dutt" then (OctahedralComplex.init (some init)).ray_dutt_twist a 1
       else (OctahedralComplex.init (some init)).bailar_twist a 1) := by
  have h1 : ((N.toNat : ℕ) : ℝ) = (N : ℝ) := by
    have h := Int.toNat_of_nonneg (le_trans zero_le_one hN)
    exact_mod_cast congrArg (fun z : ℤ => (z : ℝ)) h
  have h2 : (N : ℝ) ≠ 0 := Int.cast_ne_zero.mpr (by omega)
  have hp : ((N.toNat : ℕ) : ℝ) / (N : ℝ) = 1 := by rw [h1, div_self h2]
  rw [frameComplex]
  simp only [hp]

/-- C5: for every twist kind, angle and integer frame count `N ≥ 1`, the
animation succeeds and yields exactly `N + 1` frames; the `i`-th frame (for
`0 ≤ i ≤ N`) is the selected twist evaluated at progression `i / N` on a
complex with the same initial set, so the sequence starts at the undistorted
geometry and ends at the full requested angle (progression 1). -/
theorem claim_C5_sequence_boundaries (c : OctahedralComplex) (kind : String) (a : ℝ)
    (N : ℤ) (hN : 1 ≤ N) :
    ∃ final frames, animate_twist c kind a N = .ok (final, frames) ∧
      (frames.length : ℤ) = N + 1 ∧
      (∀ i : ℕ, (i : ℤ) ≤ N →
        frames[i]? = some (frameAt kind a N c.initial_positions i)) ∧
      frames[0]?.map Frame.positions = some c.initial_positions ∧
      frames[N.toNat]?.map Frame.positions = some
        (if kind = "ray_dutt" then
          ((OctahedralComplex.init (some c.initial_positions)).ray_dutt_twist a 1).positions
         else
          ((OctahedralComplex.init (some c.initial_positions)).bailar_twist a 1).positions) := by
  have hN0 : N ≠ 0 := by omega
  obtain ⟨final, hfin⟩ := animate_twist_eq c kind a N hN0
  refine ⟨final, _, hfin, ?_, ?_, ?_, ?_⟩
  · simp only [List.length_map, List.length_range]
    omega
  · intro i hi
    have hlt : i < (N + 1).toNat := by omega
    rw [List.getElem?_map, List.getElem?_range hlt]
    rfl
  · have h0 : (0 : ℤ) ≤ N := by omega
    rw [List.getElem?_map, List.getElem?_range (by omega : 0 < (N + 1).toNat)]
    simp only [Option.map_some']
    rw [frameAt_zero]
  · have hlt : N.toNat < (N + 1).toNat := by omega
    rw [List.getElem?_map, List.getElem?_range hlt]
    simp only [Option.map_some']
    show some (frameComplex kind a N c.initial_positions N.toNat).positions = _
    rw [frameComplex_last kind a N c.initial_positions hN]
    split
    · rfl
    · rfl

/-- C5 witness: the claim instantiated on the default complex, Ray-Dutt twist,
angle 60, two frames: the call succeeds with exactly three frames. -/
theorem claim_C5_sequence_boundaries_witness :
    ∃ final frames,
      animate_twist (OctahedralComplex.init none) "ray_dutt" 60 2 = .ok (final, frames) ∧
        (frames.length : ℤ) = 2 + 1 := by
  obtain ⟨final, frames, h1, h2, -, -, -⟩ :=
    claim_C5_sequence_boundaries (OctahedralComplex.init none) "ray_dutt" 60 2 (by norm_num)
  exact ⟨final, frames, h1, h2⟩

/-- C6 counterexample: construction with a one-point vertex set does not fail —
the constructor is total and stores the one-point list unchanged, so no
invalid-input error is possible. -/
theorem claim_C6_no_length_validation_counterexample :
    (OctahedralComplex.init (some [⟨0, 0, 0⟩])).initial_positions = [⟨0, 0, 0⟩] ∧
    (OctahedralComplex.init (some [⟨0, 0, 0⟩])).initial_positions.length ≠ 6 := by
  refine ⟨rfl, ?_⟩
  simp [OctahedralComplex.init]

/-- C6 amended: construction performs no validation at all: any supplied
vertex set (of any length) is accepted and stored as-is, and with no supplied
set the six default axis-aligned positions are used. -/
theorem claim_C6_construction_no_validation (l : List Vec3) :
    (OctahedralComplex.init (some l)).initial_positions = l ∧
    (OctahedralComplex.init (some l)).positions = l ∧
    (OctahedralComplex.init none).initial_positions = defaultPositions ∧
    (OctahedralComplex.init none).positions = defaultPositions ∧
    defaultPositions.length = 6 :=
  ⟨rfl, rfl, rfl, rfl, rfl⟩

/-- C7 counterexample: sequence generation with `frameCount = -1` returns an
empty frame list with no error of any kind, and with `frameCount = 0` it
raises a division error, not an invalid-input error. -/
theorem claim_C7_framecount_validation_counterexample :
    animate_twist (OctahedralComplex.init none) "ray_dutt" 45 (-1) =
      .ok (OctahedralComplex.init none, []) ∧
    animate_twist (OctahedralComplex.init none) "ray_dutt" 45 0 =
      .error "ZeroDivisionError: division by zero" := by
  constructor
  · rw [animate_twist, if_neg (by norm_num)]
    rfl
  · rw [animate_twist, if_pos rfl]

/-- C7 amended: there is no invalid-input validation of the frame count: with
`frameCount = 0` the progression computation raises a division-by-zero error
(an exception, not a synchronous invalid-input result), and with a negative
`frameCount` the loop body never runs and an empty frame sequence is returned
with no error. -/
theorem claim_C7_framecount_behavior (c : OctahedralComplex) (kind : String)
    (a : ℝ) (N : ℤ) :
    (N = 0 → animate_twist c kind a N = .error "ZeroDivisionError: division by zero") ∧
    (N < 0 → animate_twist c kind a N = .ok (c, [])) := by
  constructor
  · intro h
    rw [animate_twist, if_pos h]
  · intro h
    rw [animate_twist, if_neg (by omega)]
    have h0 : (N + 1).toNat = 0 := by omega
    rw [h0]
    rfl

/-- C7 witness: the amended claim at `frameCount = -3` on the default complex. -/
theorem claim_C7_framecount_behavior_witness :
    animate_twist (OctahedralComplex.init none) "bailar" 45 (-3) =
      .ok (OctahedralComplex.init none, []) :=
  (claim_C7_framecount_behavior (OctahedralComplex.init none) "bailar" 45 (-3)).2
    (by norm_num)

/-- The FaceTopology triples, in the order the claim lists them. -/
def faceTriplesSpec : List (ℕ × ℕ × ℕ) :=
  [(0, 2, 4), (0, 2, 5), (0, 3, 4), (0, 3, 5), (1, 2, 4), (1, 2, 5), (1, 3, 4), (1, 3, 5)]

/-- C8: `generate_planes` returns exactly 8 entries; the `i`-th holds the
`x`, `y` and `z` coordinates (in vertex order) of the three points of the
vertex set indexed by the `i`-th FaceTopology triple; and the result depends
only on the vertex set `positions` (it is pure: same positions, same result,
whatever the rest of the state). -/
theorem claim_C8_generate_planes_spec (c : OctahedralComplex) :
    c.generate_planes.length = 8 ∧
    c.generate_planes = faceTriplesSpec.map (fun t =>
      { x := [(c.positions.getD t.1 ⟨0, 0, 0⟩).x, (c.positions.getD t.2.1 ⟨0, 0, 0⟩).x,
              (c.positions.getD t.2.2 ⟨0, 0, 0⟩).x]
        y := [(c.positions.getD t.1 ⟨0, 0, 0⟩).y, (c.positions.getD t.2.1 ⟨0, 0, 0⟩).y,
              (c.positions.getD t.2.2 ⟨0, 0, 0⟩).y]
        z := [(c.positions.getD t.1 ⟨0, 0, 0⟩).z, (c.positions.getD t.2.1 ⟨0, 0, 0⟩).z,
              (c.positions.getD t.2.2 ⟨0, 0, 0⟩).z] }) ∧
    ∀ d : OctahedralComplex, c.positions = d.positions →
      c.generate_planes = d.generate_planes := by
  refine ⟨rfl, rfl, ?_⟩
  intro d h
  simp only [OctahedralComplex.generate_planes]
  rw [h]

theorem frameComplex_positions_length (kind : String) (a : ℝ) (N : ℤ)
    (init : List Vec3) (i : ℕ) :
    (frameComplex kind a N init i).positions.length = init.length := by
  rw [frameComplex]
  split
  · rw [ray_dutt_twist_positions_length, init_initial]
  · rw [bailar_twist_positions_length, init_initial]

theorem foldl_twistStep_final_length (kind : String) (a : ℝ) (N : ℤ) (init : List Vec3)
    (l : List ℕ) (c : OctahedralComplex) (fs : List Frame)
    (h : c.initial_positions = init) (hl : c.positions.length = init.length) :
    ((l.foldl (twistStep kind a N) (c, fs)).1).positions.length = init.length := by
  induction l generalizing c fs with
  | nil => exact hl
  | cons i rest ih =>
      rw [List.foldl_cons, twistStep_eq kind a N init c fs i h]
      exact ih _ _ (frameComplex_initial kind a N init i)
        (frameComplex_positions_length kind a N init i)

/-- C9: starting from any constructed complex with six initial vertices, no
sequence of twist evaluations ever changes the stored initial vertex set, the
current vertex set always keeps exactly six entries, and frame generation
(`animate_twist`) likewise preserves the initial set and only ever produces
six-entry vertex sets (both in the final state and in every emitted frame).
`generate_planes` takes no part in the state: it is a pure read of
`positions` (see C8). -/
theorem claim_C9_initial_immutable_current_six (init_opt : Option (List Vec3))
    (ops : List TwistOp)
    (h6 : (OctahedralComplex.init init_opt).initial_positions.length = 6) :
    (applyOps (OctahedralComplex.init init_opt) ops).initial_positions =
      (OctahedralComplex.init init_opt).initial_positions ∧
    (applyOps (OctahedralComplex.init init_opt) ops).positions.length = 6 ∧
    (∀ kind a N final frames,
      animate_twist (applyOps (OctahedralComplex.init init_opt) ops) kind a N =
        .ok (final, frames) →
      final.initial_positions = (OctahedralComplex.init init_opt).initial_positions ∧
      final.positions.length = 6 ∧ ∀ f ∈ frames, f.positions.length = 6) := by
  have hinit : (applyOps (OctahedralComplex.init init_opt) ops).initial_positions =
      (OctahedralComplex.init init_opt).initial_positions :=
    applyOps_initial (OctahedralComplex.init init_opt) ops
  have hposlen : (applyOps (OctahedralComplex.init init_opt) ops).positions.length = 6 :=
    (applyOps_positions_length (OctahedralComplex.init init_opt) ops rfl).trans h6
  refine ⟨hinit, hposlen, ?_⟩
  intro kind a N final frames hok
  by_cases hN : N = 0
  · rw [animate_twist, if_pos hN] at hok
    exact absurd hok (by simp)
  · rw [animate_twist, if_neg hN] at hok
    injection hok with hok2
    have hfst := congrArg Prod.fst hok2
    have hsnd := congrArg Prod.snd hok2
    dsimp only at hfst hsnd
    obtain ⟨hframes, -⟩ := foldl_twistStep kind a N
      (applyOps (OctahedralComplex.init init_opt) ops).initial_positions
      (List.range (N + 1).toNat) (applyOps (OctahedralComplex.init init_opt) ops) [] rfl
    obtain ⟨-, hfinit⟩ := foldl_twistStep kind a N
      (applyOps (OctahedralComplex.init init_opt) ops).initial_positions
      (List.range (N + 1).toNat) (applyOps (OctahedralComplex.init init_opt) ops) [] rfl
    have hflen := foldl_twistStep_final_length kind a N
      (applyOps (OctahedralComplex.init init_opt) ops).initial_positions
      (List.range (N + 1).toNat) (applyOps (OctahedralComplex.init init_opt) ops) []
      rfl (by rw [hposlen, hinit, h6])
    refine ⟨?_, ?_, ?_⟩
    · rw [← hfst, hfinit, hinit]
    · rw [← hfst, hflen, hinit, h6]
    · intro f hf
      rw [← hsnd, hframes] at hf
      simp only [List.nil_append, List.mem_map, List.mem_range] at hf
      obtain ⟨i, -, rfl⟩ := hf
      show (frameComplex kind a N _ i).positions.length = 6
      rw [frameComplex_positions_length, hinit, h6]

/-- C9 witness: the claim instantiated with the default construction and a
single Ray-Dutt call. -/
theorem claim_C9_initial_immutable_current_six_witness :
    (applyOps (OctahedralComplex.init none) [TwistOp.rayDutt 60 1]).positions.length = 6 :=
  (claim_C9_initial_immutable_current_six none [TwistOp.rayDutt 60 1] rfl).2.1

theorem axisAngleRotate_z_axis_fixed (θ : ℝ) :
    axisAngleRotate ⟨0, 0, 1⟩ θ ⟨0, 0, 1⟩ = ⟨0, 0, 1⟩ ∧
    axisAngleRotate ⟨0, 0, 1⟩ θ ⟨0, 0, -1⟩ = ⟨0, 0, -1⟩ := by
  constructor <;>
    · simp only [axisAngleRotate, Vec3.cross, Vec3.dot, Vec3.smul_def, Vec3.add_def,
        Vec3.mk.injEq]
      refine ⟨by ring, by ring, by ring⟩

/-- C10: with the default initial positions, `bailar_twist` leaves the two
z-axis vertices fixed for every angle and progression: index 4 stays at
`(0,0,1)` and index 5 at `(0,0,-1)`, since both lie on the `(0,0,1)` rotation
axis of their groups. -/
theorem claim_C10_bailar_z_vertices_fixed (a p : ℝ) :
    ((OctahedralComplex.init none).bailar_twist a p).positions[4]? = some ⟨0, 0, 1⟩ ∧
    ((OctahedralComplex.init none).bailar_twist a p).positions[5]? = some ⟨0, 0, -1⟩ := by
  rw [bailar_twist_positions (OctahedralComplex.init none) a p
    ⟨1, 0, 0⟩ ⟨-1, 0, 0⟩ ⟨0, 1, 0⟩ ⟨0, -1, 0⟩ ⟨0, 0, 1⟩ ⟨0, 0, -1⟩ rfl]
  constructor
  · simp only [List.getElem?_cons_succ, List.getElem?_cons_zero]
    exact congrArg some (axisAngleRotate_z_axis_fixed (deg2rad (a * p))).1
  · simp only [List.getElem?_cons_succ, List.getElem?_cons_zero]
    exact congrArg some (axisAngleRotate_z_axis_fixed (-(deg2rad (a * p)))).2
